import Mathlib

/-!
Shallow embedding of the multiplexing core of the triggerhappy daemon
(src/thd.c): the device registry, the command channel with its line
reassembly buffer, and the readiness-driven event loop.

Device paths and buffer contents are modelled as `List Char`; the C code
manipulates NUL-terminated strings, so a buffer's content is its character
list up to the terminator.  File descriptors are abstracted to their only
observable property in the core: whether `cmdfd` is `-1` or open.  The
outcome of each system call (`select`, `read`, `open`) is an explicit
parameter of the corresponding function.
-/

namespace Triggerhappy

/-- `MAXCMD` from thd.c line 34: capacity of the command buffer. -/
def MAXCMD : Nat := 1024

/-- `EV_KEY` from the Linux input ABI (linux/input-event-codes.h). -/
def EV_KEY : Nat := 1

/-- `EV_SW` from the Linux input ABI (linux/input-event-codes.h). -/
def EV_SW : Nat := 5

/-- The decoded part of `struct input_event` used by thd.c: `{type, code, value}`
(the timestamp is read but never interpreted). -/
structure InputEvent where
  type : Nat
  code : Nat
  value : Int
  deriving DecidableEq, Repr

/-- Outcome of the `read` in `read_event` (thd.c line 62): either a complete,
correctly sized record, or a short/invalid read (`n != sizeof(ev)`). -/
inductive DevRead where
  | ok (ev : InputEvent)
  | short
  deriving DecidableEq, Repr

/-- Calls `read_event` makes to its collaborators, in order:
`change_keystate`, the dump-mode logging (`print_event`, `print_keystate`),
and `run_triggers`. -/
inductive Action where
  | changeKeystate (ev : InputEvent)
  | printEvent (dev : List Char) (ev : InputEvent)
  | printKeystate
  | runTriggers (type code : Nat) (value : Int)
  deriving DecidableEq, Repr

/-- `read_event` from thd.c lines 58-77.  Returns the C function's return
value as a Bool (`true` = 1 = read error) together with the ordered trace of
collaborator calls it performs. -/
def read_event (dump_events : Bool) (dev : List Char) (r : DevRead) :
    Bool × List Action :=
  match r with
  | .short => (true, [])
  | .ok ev =>
    if ev.type = EV_KEY ∨ ev.type = EV_SW then
      (false,
        [Action.changeKeystate ev]
          ++ (if dump_events then [Action.printEvent dev ev, Action.printKeystate] else [])
          ++ [Action.runTriggers ev.type ev.code ev.value])
    else
      (false, [])

/-- Modelled from the spec: `devices.c` is not under src/ (only thd.c is).
Spec §4.1 `add(path)`: "opens the path read-only ... on open failure, logs and
leaves the registry unchanged (non-fatal).  On success, appends a new Device
at the tail."  `ok` is whether the open succeeded.  A Device is identified by
its path (spec §3: "Identity = path"). -/
def add_device (ok : Bool) (p : List Char) (devs : List (List Char)) :
    List (List Char) :=
  if ok then devs ++ [p] else devs

/-- Modelled from the spec: `devices.c` is not under src/.  Spec §4.1
`remove(path)`: "closes the descriptor if present and unlinks the entry;
no-op if `path` is not present."  Every entry with the given path is
unlinked. -/
def remove_device (p : List Char) (devs : List (List Char)) :
    List (List Char) :=
  devs.filter (fun d => d ≠ p)

/-- Modelled from the spec: `devices.c` is not under src/.  Spec §4.1
`count()`: the number of registered devices. -/
def count_devices (devs : List (List Char)) : Nat :=
  devs.length

/-- The delimiters `" \t"` of `process_commandline` (thd.c line 91). -/
def isDelim (c : Char) : Bool :=
  c = ' ' || c = '\t'

/-- `strtok` tokenization over `" \t"` (thd.c lines 93-98): the maximal runs
of non-delimiter characters, in order. -/
def tokens (line : List Char) : List (List Char) :=
  (line.splitOnP isDelim).filter (fun t => t ≠ [])

/-- A parsed command: `ADD <path>` or `REMOVE <path>` (thd.c lines 100-108). -/
inductive Command where
  | add (p : List Char)
  | remove (p : List Char)
  deriving DecidableEq, Repr

/-- The recognition step of `process_commandline` (thd.c lines 90-109):
`op` is the first token, `dev` the second; `ADD`/`REMOVE` with a present
`dev` yield a command, everything else is ignored (`none`). -/
def parse_command (line : List Char) : Option Command :=
  match tokens line with
  | [] => none
  | op :: rest =>
    if op = "ADD".toList then rest.head?.map Command.add
    else if op = "REMOVE".toList then rest.head?.map Command.remove
    else none

/-- `process_commandline` (thd.c lines 90-109) acting on the registry:
`ADD dev` performs `remove_device` then `add_device` ("make sure we remove
double devices"); `REMOVE dev` performs `remove_device`; anything else
leaves the registry unchanged.  `openOk p` is whether opening path `p`
succeeds. -/
def process_commandline (openOk : List Char → Bool) (line : List Char)
    (devs : List (List Char)) : List (List Char) :=
  match parse_command line with
  | some (.add d) => add_device (openOk d) d (remove_device d devs)
  | some (.remove d) => remove_device d devs
  | none => devs

/-- One step of the newline scan of `read_command_pipe` (thd.c lines
133-144): `strchr(cmdbuffer, '\n')` splits the buffer at the first newline
into the line before it and the remainder after it; `none` when no newline
is present. -/
def takeLine : List Char → Option (List Char × List Char)
  | [] => none
  | c :: cs =>
    if c = '\n' then some ([], cs)
    else (takeLine cs).map (fun p => (c :: p.1, p.2))

/-- The `while ( nl = strchr(cmdbuffer, '\n') )` loop of `read_command_pipe`
(thd.c lines 134-144), fuelled by the buffer length (each iteration consumes
the split newline, so `buf.length` iterations suffice).  Returns the
complete lines extracted, in order, and the remaining tail kept in the
buffer. -/
def drainLinesFuel : Nat → List Char → List (List Char) × List Char
  | 0, buf => ([], buf)
  | fuel + 1, buf =>
    match takeLine buf with
    | none => ([], buf)
    | some (l, r) =>
      let p := drainLinesFuel fuel r
      (l :: p.1, p.2)

/-- The newline-splitting loop of `read_command_pipe` on a buffer. -/
def drainLines (buf : List Char) : List (List Char) × List Char :=
  drainLinesFuel buf.length buf

/-- The daemon's mutable state (thd.c lines 27-35): the device list `devs`,
the configured FIFO path `command_pipe`, whether `cmdfd` is open
(`cmdfd = false` models `cmdfd == -1`), and the command buffer. -/
structure DaemonState where
  devs : List (List Char)
  command_pipe : Option (List Char)
  cmdfd : Bool
  cmdbuffer : List Char
  deriving DecidableEq, Repr

/-- `open_cmd` from thd.c lines 79-88.  `ok` is whether the `open` system
call succeeds.  On failure `cmdfd` is `-1` (the failed `open`'s return
value), `command_pipe` is freed and cleared, and the C function returns 1
(`true` here). -/
def open_cmd (ok : Bool) (s : DaemonState) : DaemonState × Bool :=
  if ok then ({ s with cmdfd := true }, false)
  else ({ s with cmdfd := false, command_pipe := none }, true)

/-- `read_command_pipe` from thd.c lines 111-145.  `incoming` is the byte
sequence the peer has available; `read(cmdfd, buf, rem-1)` delivers at most
`rem - 1` of them, so the data read is `incoming.take (rem - 1)`, and a
result of zero bytes (`done == 0`) is the EOF/reconnect branch: clear the
buffer, close `cmdfd` and call `open_cmd` (`reopenOk` = whether that reopen
succeeds).  Otherwise the data is appended to the buffer and the newline
scan extracts complete lines, each handed to `process_commandline` in
order.  Returns the new state and those lines. -/
def read_command_pipe (openOk : List Char → Bool) (reopenOk : Bool)
    (incoming : List Char) (s : DaemonState) :
    DaemonState × List (List Char) :=
  let len := s.cmdbuffer.length
  let rem := MAXCMD - len
  let data := incoming.take (rem - 1)
  if data = [] then
    ((open_cmd reopenOk { s with cmdbuffer := [] }).1, [])
  else
    let p := drainLines (s.cmdbuffer ++ data)
    ({ s with
        cmdbuffer := p.2,
        devs := p.1.foldl (fun d line => process_commandline openOk line d) s.devs },
      p.1)

/-- The traversal of `process_devices` (thd.c lines 163-177) with the full
registry `all` (the global `devs` that `remove_device` acts on) and the
remaining sublist to scan.  `ready d` models `FD_ISSET(fd, fds)`; `fails d`
models `read_event` returning nonzero for that device.  On the first ready
device whose read fails, the device is removed from `all` and the function
returns at once.  Returns the new registry and the ordered list of devices
on which `read_event` was invoked. -/
def process_devicesAux (ready fails : List Char → Bool)
    (all : List (List Char)) :
    List (List Char) → List (List Char) × List (List Char)
  | [] => (all, [])
  | d :: rest =>
    if ready d then
      if fails d then (remove_device d all, [d])
      else
        let p := process_devicesAux ready fails all rest
        (p.1, d :: p.2)
    else
      process_devicesAux ready fails all rest

/-- `process_devices` (thd.c lines 163-177) on the registry. -/
def process_devices (ready fails : List Char → Bool)
    (devs : List (List Char)) : List (List Char) × List (List Char) :=
  process_devicesAux ready fails devs devs

/-- Outcome of one `select` call in `process_events` (thd.c line 197):
error (`retval == -1`), timeout (`retval == 0`), or readiness, in which
case the environment supplies which devices are ready, which device reads
fail, whether the command descriptor is ready, the bytes available on it,
whether a reopen after EOF would succeed, and whether device opens
succeed. -/
inductive SelectResult where
  | err
  | timeout
  | ready (devReady devFails : List Char → Bool) (cmdReady : Bool)
      (incoming : List Char) (reopenOk : Bool) (openOk : List Char → Bool)

/-- One iteration body of the `while` loop of `process_events` (thd.c lines
186-206).  A `select` error is logged and the iteration does nothing; a
timeout does nothing; on readiness, `process_devices` runs first, then (if
`cmdfd != -1` and the command descriptor is ready) `read_command_pipe`. -/
def loopIter (s : DaemonState) (inp : SelectResult) : DaemonState :=
  match inp with
  | .err => s
  | .timeout => s
  | .ready dr df cr inc ro ok =>
    let s1 := { s with devs := (process_devices dr df s.devs).1 }
    if s1.cmdfd && cr then (read_command_pipe ok ro inc s1).1 else s1

/-- The loop guard of `process_events` (thd.c line 186):
`count_devices(&devs) > 0 || cmdfd != -1`. -/
def loopCond (s : DaemonState) : Bool :=
  decide (0 < count_devices s.devs) || s.cmdfd

/-- The `while` loop of `process_events` (thd.c lines 179-207), fuelled:
`env k` is the outcome of the `select` call of iteration `k`.  `some s`
means the loop halted in state `s` (the guard became false); `none` means
it was still running after `fuel` iterations. -/
def process_events (env : Nat → SelectResult) (k fuel : Nat)
    (s : DaemonState) : Option DaemonState :=
  match fuel with
  | 0 => none
  | fuel' + 1 =>
    if loopCond s then process_events env (k + 1) fuel' (loopIter s (env k))
    else some s
termination_by fuel

/-- The device-adding loop of `start_readers` (thd.c lines 282-287): each
startup path is handed to `add_device` in order, starting from the empty
registry.  `openOk p` is whether opening path `p` succeeds. -/
def start_registry (openOk : List Char → Bool) (paths : List (List Char)) :
    List (List Char) :=
  paths.foldl (fun devs p => add_device (openOk p) p devs) []

/-! Helper lemmas. -/

/-- `strchr` finds no newline exactly when the buffer holds none. -/
theorem takeLine_eq_none {buf : List Char} :
    takeLine buf = none ↔ '\n' ∉ buf := by
  induction buf with
  | nil => simp [takeLine]
  | cons c cs ih =>
    by_cases hc : c = '\n'
    · simp [takeLine, hc]
    · simp [takeLine, hc, Option.map_eq_none', ih, Ne.symm hc]

/-- A successful `strchr` split decomposes the buffer at its first newline. -/
theorem takeLine_eq_some :
    ∀ {buf l r : List Char}, takeLine buf = some (l, r) →
      buf = l ++ '\n' :: r ∧ '\n' ∉ l := by
  intro buf
  induction buf with
  | nil => intro l r h; exact absurd h (by simp [takeLine])
  | cons c cs ih =>
    intro l r h
    by_cases hc : c = '\n'
    · rw [takeLine, if_pos hc] at h
      have h1 := Option.some.inj h
      have hl : ([] : List Char) = l := congrArg Prod.fst h1
      have hr : cs = r := congrArg Prod.snd h1
      subst hl; subst hr; subst hc
      simp
    · rw [takeLine, if_neg hc] at h
      cases hcs : takeLine cs with
      | none => rw [hcs] at h; simp at h
      | some p =>
        obtain ⟨l', r'⟩ := p
        rw [hcs] at h
        simp only [Option.map_some'] at h
        have h1 := Option.some.inj h
        have hl : c :: l' = l := congrArg Prod.fst h1
        have hr : r' = r := congrArg Prod.snd h1
        subst hl; subst hr
        obtain ⟨hdec, hnl⟩ := ih hcs
        constructor
        · simp [hdec]
        · intro hmem
          rcases List.mem_cons.mp hmem with h1 | h1
          · exact hc h1.symm
          · exact hnl h1

/-- Unfolding lemma: the scan loop does nothing when no newline is present. -/
theorem drainLinesFuel_succ_none {n : Nat} {buf : List Char}
    (h : takeLine buf = none) : drainLinesFuel (n + 1) buf = ([], buf) := by
  simp [drainLinesFuel, h]

/-- Unfolding lemma: one iteration of the scan loop on a found newline. -/
theorem drainLinesFuel_succ_some {n : Nat} {buf l r : List Char}
    (h : takeLine buf = some (l, r)) :
    drainLinesFuel (n + 1) buf
      = (l :: (drainLinesFuel n r).1, (drainLinesFuel n r).2) := by
  simp [drainLinesFuel, h]

/-- Characterization of the newline-splitting loop: the scanned buffer is the
concatenation of the extracted lines (each followed by the newline removed at
the split) and the retained tail; no extracted line and no tail contains a
newline. -/
theorem drainLinesFuel_spec :
    ∀ (fuel : Nat) (buf : List Char), buf.length ≤ fuel →
      buf = ((drainLinesFuel fuel buf).1.map (fun l => l ++ ['\n'])).flatten
              ++ (drainLinesFuel fuel buf).2
        ∧ (∀ l ∈ (drainLinesFuel fuel buf).1, '\n' ∉ l)
        ∧ '\n' ∉ (drainLinesFuel fuel buf).2 := by
  intro fuel
  induction fuel with
  | zero =>
    intro buf h
    have hb : buf = [] := List.length_eq_zero.mp (Nat.le_zero.mp h)
    subst hb
    simp [drainLinesFuel]
  | succ n ih =>
    intro buf h
    cases htl : takeLine buf with
    | none =>
      rw [drainLinesFuel_succ_none htl]
      refine ⟨by simp, by simp, takeLine_eq_none.mp htl⟩
    | some p =>
      obtain ⟨l, r⟩ := p
      obtain ⟨hbuf, hnl⟩ := takeLine_eq_some htl
      have hr : r.length ≤ n := by
        have hlen : buf.length = l.length + 1 + r.length := by
          rw [hbuf]; simp; omega
        omega
      obtain ⟨ih1, ih2, ih3⟩ := ih r hr
      rw [drainLinesFuel_succ_some htl]
      refine ⟨?_, ?_, ih3⟩
      · calc buf = l ++ '\n' :: r := hbuf
        _ = l ++ '\n' :: (((drainLinesFuel n r).1.map (fun l => l ++ ['\n'])).flatten
              ++ (drainLinesFuel n r).2) := by rw [← ih1]
        _ = ((l :: (drainLinesFuel n r).1).map (fun l => l ++ ['\n'])).flatten
              ++ (drainLinesFuel n r).2 := by simp
      · intro l' hl'
        rcases List.mem_cons.mp hl' with hl' | hl'
        · subst hl'; exact hnl
        · exact ih2 l' hl'

/-- `drainLines` decomposition, unconditionally. -/
theorem drainLines_spec (buf : List Char) :
    buf = ((drainLines buf).1.map (fun l => l ++ ['\n'])).flatten ++ (drainLines buf).2
      ∧ (∀ l ∈ (drainLines buf).1, '\n' ∉ l)
      ∧ '\n' ∉ (drainLines buf).2 :=
  drainLinesFuel_spec buf.length buf (Nat.le_refl _)

/-- Every line extracted from a buffer is strictly shorter than the buffer. -/
theorem drainLines_line_length {buf l : List Char}
    (hl : l ∈ (drainLines buf).1) : l.length + 1 ≤ buf.length := by
  have hspec := (drainLines_spec buf).1
  have hlen : buf.length
      = (((drainLines buf).1.map (fun l => l ++ ['\n'])).map List.length).sum
        + (drainLines buf).2.length := by
    calc buf.length
        = (((drainLines buf).1.map (fun l => l ++ ['\n'])).flatten
            ++ (drainLines buf).2).length := by rw [← hspec]
      _ = _ := by rw [List.length_append, List.length_flatten]
  have hmem : l.length + 1
      ∈ ((drainLines buf).1.map (fun l => l ++ ['\n'])).map List.length := by
    simp only [List.map_map, List.mem_map]
    exact ⟨l, hl, by simp⟩
  have hle : l.length + 1
      ≤ (((drainLines buf).1.map (fun l => l ++ ['\n'])).map List.length).sum :=
    List.single_le_sum (fun x _ => Nat.zero_le x) _ hmem
  omega

/-- The tail kept by the newline scan is no longer than the scanned buffer. -/
theorem drainLines_tail_length (buf : List Char) :
    (drainLines buf).2.length ≤ buf.length := by
  have hspec := (drainLines_spec buf).1
  have hlen : buf.length
      = ((drainLines buf).1.map (fun l => l ++ ['\n'])).flatten.length
        + (drainLines buf).2.length := by
    calc buf.length
        = (((drainLines buf).1.map (fun l => l ++ ['\n'])).flatten
            ++ (drainLines buf).2).length := by rw [← hspec]
      _ = _ := by rw [List.length_append]
  omega

/-- Unfolding lemma: `open_cmd` on a successful `open`. -/
theorem open_cmd_ok (s : DaemonState) :
    open_cmd true s = ({ s with cmdfd := true }, false) := rfl

/-- Unfolding lemma: `open_cmd` on a failed `open`. -/
theorem open_cmd_fail (s : DaemonState) :
    open_cmd false s = ({ s with cmdfd := false, command_pipe := none }, true) := rfl

/-- Unfolding lemma: the drain on a `read` that returns zero bytes takes the
EOF/reconnect branch. -/
theorem read_command_pipe_eof {openOk : List Char → Bool} {reopenOk : Bool}
    {incoming : List Char} {s : DaemonState}
    (h : incoming.take (MAXCMD - s.cmdbuffer.length - 1) = []) :
    read_command_pipe openOk reopenOk incoming s
      = ((open_cmd reopenOk { s with cmdbuffer := [] }).1, []) := by
  simp only [read_command_pipe]
  rw [if_pos h]

/-- Unfolding lemma: the drain on a `read` that returns data appends it and
runs the newline scan. -/
theorem read_command_pipe_data {openOk : List Char → Bool} {reopenOk : Bool}
    {incoming : List Char} {s : DaemonState}
    (h : incoming.take (MAXCMD - s.cmdbuffer.length - 1) ≠ []) :
    read_command_pipe openOk reopenOk incoming s
      = ({ s with
            cmdbuffer := (drainLines
              (s.cmdbuffer ++ incoming.take (MAXCMD - s.cmdbuffer.length - 1))).2,
            devs := (drainLines
              (s.cmdbuffer ++ incoming.take (MAXCMD - s.cmdbuffer.length - 1))).1.foldl
                (fun d line => process_commandline openOk line d) s.devs },
          (drainLines
            (s.cmdbuffer ++ incoming.take (MAXCMD - s.cmdbuffer.length - 1))).1) := by
  simp only [read_command_pipe]
  rw [if_neg h]

/-- The loop guard is false exactly when the registry is empty and the
command descriptor is gone. -/
theorem loopCond_eq_false_iff (s : DaemonState) :
    loopCond s = false ↔ (s.devs = [] ∧ s.cmdfd = false) := by
  cases hfd : s.cmdfd <;> cases hd : s.devs <;>
    simp [loopCond, count_devices, hfd, hd]

/-- The loop only halts in a state where the guard is false. -/
theorem process_events_halt {env : Nat → SelectResult} :
    ∀ {k fuel : Nat} {s s' : DaemonState},
      process_events env k fuel s = some s' → loopCond s' = false := by
  intro k fuel
  induction fuel generalizing k with
  | zero => intro s s' h; simp [process_events] at h
  | succ n ih =>
    intro s s' h
    rw [process_events] at h
    by_cases hc : loopCond s = true
    · rw [if_pos hc] at h
      exact ih h
    · rw [if_neg hc] at h
      cases Option.some.inj h
      simpa using hc

/-- `remove_device` removes every entry carrying the removed path. -/
theorem not_mem_remove_device (p : List Char) (devs : List (List Char)) :
    p ∉ remove_device p devs := by
  simp [remove_device, List.mem_filter]

/-- `remove_device` keeps every entry carrying a different path. -/
theorem mem_remove_device_of_ne {q p : List Char} {devs : List (List Char)}
    (hq : q ∈ devs) (hne : q ≠ p) : q ∈ remove_device p devs := by
  simp [remove_device, List.mem_filter, hq, hne]

/-- `remove_device` preserves distinctness of the registry. -/
theorem remove_device_nodup {devs : List (List Char)} (h : devs.Nodup)
    (p : List Char) : (remove_device p devs).Nodup :=
  h.filter _

/-- Remove-then-add preserves distinctness of the registry (the ADD path of
`process_commandline`). -/
theorem add_remove_device_nodup {devs : List (List Char)} (h : devs.Nodup)
    (ok : Bool) (p : List Char) :
    (add_device ok p (remove_device p devs)).Nodup := by
  cases ok with
  | false => exact remove_device_nodup h p
  | true =>
    rw [add_device, if_pos rfl, List.nodup_append]
    refine ⟨remove_device_nodup h p, List.nodup_singleton p, ?_⟩
    intro a ha hap
    rw [List.mem_singleton] at hap
    exact absurd (hap ▸ ha) (not_mem_remove_device p devs)

/-- `process_commandline` preserves distinctness of the registry. -/
theorem process_commandline_nodup (openOk : List Char → Bool)
    (line : List Char) {devs : List (List Char)} (h : devs.Nodup) :
    (process_commandline openOk line devs).Nodup := by
  rw [process_commandline]
  cases parse_command line with
  | none => exact h
  | some c =>
    cases c with
    | add d => exact add_remove_device_nodup h (openOk d) d
    | remove d => exact remove_device_nodup h d

/-- Folding line processing over any list of lines preserves distinctness. -/
theorem foldl_process_commandline_nodup (openOk : List Char → Bool) :
    ∀ (lines : List (List Char)) {devs : List (List Char)}, devs.Nodup →
      (lines.foldl (fun d line => process_commandline openOk line d) devs).Nodup := by
  intro lines
  induction lines with
  | nil => intro devs h; exact h
  | cons l ls ih =>
    intro devs h
    exact ih (process_commandline_nodup openOk l h)

/-- The registry produced by one `process_devices` pass is either untouched
or the removal of a single path. -/
theorem process_devicesAux_result (ready fails : List Char → Bool)
    (all : List (List Char)) :
    ∀ scan : List (List Char),
      (process_devicesAux ready fails all scan).1 = all
        ∨ ∃ d, (process_devicesAux ready fails all scan).1 = remove_device d all := by
  intro scan
  induction scan with
  | nil => left; rfl
  | cons d rest ih =>
    by_cases hr : ready d = true
    · by_cases hf : fails d = true
      · right
        exact ⟨d, by simp [process_devicesAux, hr, hf]⟩
      · simpa [process_devicesAux, hr, hf] using ih
    · simpa [process_devicesAux, hr] using ih

/-- One `process_devices` pass preserves distinctness of the registry. -/
theorem process_devices_nodup (ready fails : List Char → Bool)
    {devs : List (List Char)} (h : devs.Nodup) :
    (process_devices ready fails devs).1.Nodup := by
  rcases process_devicesAux_result ready fails devs devs with heq | ⟨d, heq⟩
  · rw [process_devices, heq]; exact h
  · rw [process_devices, heq]; exact remove_device_nodup h d

/-- The drain preserves distinctness of the registry. -/
theorem read_command_pipe_nodup (openOk : List Char → Bool) (reopenOk : Bool)
    (incoming : List Char) {s : DaemonState} (h : s.devs.Nodup) :
    (read_command_pipe openOk reopenOk incoming s).1.devs.Nodup := by
  by_cases he : incoming.take (MAXCMD - s.cmdbuffer.length - 1) = []
  · rw [read_command_pipe_eof he]
    cases reopenOk with
    | false => rw [open_cmd_fail]; exact h
    | true => rw [open_cmd_ok]; exact h
  · rw [read_command_pipe_data he]
    exact foldl_process_commandline_nodup openOk _ h

/-- One loop iteration preserves distinctness of the registry. -/
theorem loopIter_nodup (s : DaemonState) (inp : SelectResult)
    (h : s.devs.Nodup) : (loopIter s inp).devs.Nodup := by
  cases inp with
  | err => exact h
  | timeout => exact h
  | ready dr df cr inc ro ok =>
    rw [loopIter]
    by_cases hc : ({ s with devs := (process_devices dr df s.devs).1 } : DaemonState).cmdfd && cr
    · rw [if_pos hc]
      exact read_command_pipe_nodup ok ro inc (process_devices_nodup dr df h)
    · rw [if_neg hc]
      exact process_devices_nodup dr df h

/-- The loop preserves distinctness of the registry up to its halt state. -/
theorem process_events_nodup {env : Nat → SelectResult} :
    ∀ {k fuel : Nat} {s s' : DaemonState}, s.devs.Nodup →
      process_events env k fuel s = some s' → s'.devs.Nodup := by
  intro k fuel
  induction fuel generalizing k with
  | zero => intro s s' _ h; simp [process_events] at h
  | succ n ih =>
    intro s s' hnd h
    rw [process_events] at h
    by_cases hc : loopCond s = true
    · rw [if_pos hc] at h
      exact ih (loopIter_nodup s (env k) hnd) h
    · rw [if_neg hc] at h
      cases Option.some.inj h
      exact hnd

/-- The startup add loop, from any initial registry. -/
theorem foldl_add_device_nodup (openOk : List Char → Bool) :
    ∀ (paths : List (List Char)) (init : List (List Char)),
      init.Nodup → paths.Nodup → (∀ q ∈ init, q ∉ paths) →
      (paths.foldl (fun devs p => add_device (openOk p) p devs) init).Nodup := by
  intro paths
  induction paths with
  | nil => intro init hinit _ _; exact hinit
  | cons p ps ih =>
    intro init hinit hpaths hdisj
    rw [List.foldl_cons]
    rcases List.nodup_cons.mp hpaths with ⟨hp, hps⟩
    cases hok : openOk p with
    | false =>
      rw [add_device, if_neg (by simp [hok])]
      refine ih init hinit hps ?_
      intro q hq
      exact fun hmem => hdisj q hq (List.mem_cons_of_mem p hmem)
    | true =>
      rw [add_device, if_pos rfl]
      refine ih (init ++ [p]) ?_ hps ?_
      · rw [List.nodup_append]
        refine ⟨hinit, List.nodup_singleton p, ?_⟩
        intro a ha hap
        rw [List.mem_singleton] at hap
        exact hdisj a ha (hap ▸ List.mem_cons_self p ps)
      · intro q hq
        rcases List.mem_append.mp hq with hq | hq
        · exact fun hmem => hdisj q hq (List.mem_cons_of_mem p hmem)
        · rw [List.mem_singleton] at hq
          exact hq ▸ hp

/-- Distinct startup paths produce a registry without duplicates. -/
theorem start_registry_nodup (openOk : List Char → Bool)
    {paths : List (List Char)} (h : paths.Nodup) :
    (start_registry openOk paths).Nodup :=
  foldl_add_device_nodup openOk paths [] List.nodup_nil h (by simp)

/-- A `process_devices` pass in which no read fails leaves the registry
untouched and services exactly the ready devices, in order. -/
theorem process_devicesAux_no_fail (ready : List Char → Bool)
    (all : List (List Char)) :
    ∀ scan : List (List Char),
      process_devicesAux ready (fun _ => false) all scan
        = (all, scan.filter (fun e => ready e)) := by
  intro scan
  induction scan with
  | nil => simp [process_devicesAux]
  | cons d rest ih =>
    by_cases hr : ready d = true
    · simp [process_devicesAux, hr, ih, List.filter_cons]
    · have hr' : ready d = false := by
        cases h : ready d with
        | false => rfl
        | true => exact absurd h hr
      simp [process_devicesAux, hr', ih, List.filter_cons]

/-- A `process_devices` pass whose first ready-and-failing device is `d`
removes `d` from the registry and stops: it services the ready prefix
devices and `d`, and nothing after `d`. -/
theorem process_devicesAux_first_fail (ready fails : List Char → Bool)
    {d : List Char} (hr : ready d = true) (hf : fails d = true)
    (post : List (List Char)) :
    ∀ (pre : List (List Char)) (all : List (List Char)),
      (∀ e ∈ pre, ¬(ready e = true ∧ fails e = true)) →
      process_devicesAux ready fails all (pre ++ d :: post)
        = (remove_device d all, pre.filter (fun e => ready e) ++ [d]) := by
  intro pre
  induction pre with
  | nil =>
    intro all _
    simp [process_devicesAux, hr, hf]
  | cons e pre' ih =>
    intro all hpre
    have hnot : ¬(ready e = true ∧ fails e = true) :=
      hpre e (List.mem_cons_self e pre')
    have hpre' : ∀ x ∈ pre', ¬(ready x = true ∧ fails x = true) :=
      fun x hx => hpre x (List.mem_cons_of_mem e hx)
    by_cases hre : ready e = true
    · have hfe : fails e = false := by
        cases hfe : fails e with
        | false => rfl
        | true => exact absurd ⟨hre, hfe⟩ hnot
      rw [List.cons_append]
      simp only [process_devicesAux, hre, hfe, if_true, if_false,
        Bool.false_eq_true, ih all hpre']
      simp [List.filter_cons, hre]
    · have hre' : ready e = false := by
        cases h : ready e with
        | false => rfl
        | true => exact absurd h hre
      rw [List.cons_append]
      simp only [process_devicesAux, hre', Bool.false_eq_true, if_false,
        ih all hpre']
      simp [List.filter_cons, hre']

/-! Claim theorems. -/

/-- C1: on every drain that reads data, the command buffer plus the bytes
read decompose exactly into the newline-terminated lines handed to the
command parser (each line excludes its newline and contains none) followed
by the newline-free tail kept as the new buffer; concretely, writing
"ADD /dev/input/event0" and then, in a later drain, "\n" hands over no line
on the first drain (the partial command is kept buffered, not processed
early) and exactly one line on the second, which parses to the command
ADD /dev/input/event0, leaving an empty buffer. -/
theorem C1_line_reassembly :
    (∀ (openOk : List Char → Bool) (reopenOk : Bool) (incoming : List Char)
        (s : DaemonState),
      incoming.take (MAXCMD - s.cmdbuffer.length - 1) ≠ [] →
        s.cmdbuffer ++ incoming.take (MAXCMD - s.cmdbuffer.length - 1)
            = (((read_command_pipe openOk reopenOk incoming s).2).map
                  (fun l => l ++ ['\n'])).flatten
              ++ (read_command_pipe openOk reopenOk incoming s).1.cmdbuffer
          ∧ (∀ l ∈ (read_command_pipe openOk reopenOk incoming s).2, '\n' ∉ l)
          ∧ '\n' ∉ (read_command_pipe openOk reopenOk incoming s).1.cmdbuffer)
    ∧ (read_command_pipe (fun _ => true) true ("ADD /dev/input/event0".toList)
        (DaemonState.mk [] (some ("p".toList)) true [])).2 = []
    ∧ (read_command_pipe (fun _ => true) true ("ADD /dev/input/event0".toList)
        (DaemonState.mk [] (some ("p".toList)) true [])).1.cmdbuffer
        = "ADD /dev/input/event0".toList
    ∧ (read_command_pipe (fun _ => true) true ['\n']
        ((read_command_pipe (fun _ => true) true ("ADD /dev/input/event0".toList)
          (DaemonState.mk [] (some ("p".toList)) true [])).1)).2
        = ["ADD /dev/input/event0".toList]
    ∧ (read_command_pipe (fun _ => true) true ['\n']
        ((read_command_pipe (fun _ => true) true ("ADD /dev/input/event0".toList)
          (DaemonState.mk [] (some ("p".toList)) true [])).1)).1.cmdbuffer = []
    ∧ parse_command ("ADD /dev/input/event0".toList)
        = some (Command.add ("/dev/input/event0".toList)) := by
  refine ⟨?_, by decide, by decide, by decide, by decide, by decide⟩
  intro openOk reopenOk incoming s hd
  rw [read_command_pipe_data hd]
  obtain ⟨h1, h2, h3⟩ := drainLines_spec
    (s.cmdbuffer ++ incoming.take (MAXCMD - s.cmdbuffer.length - 1))
  exact ⟨h1, h2, h3⟩

/-- Witness for C1: the general decomposition applies to a concrete drain. -/
theorem C1_line_reassembly_witness :
    '\n' ∉ (read_command_pipe (fun _ => true) true ("A\nB".toList)
      (DaemonState.mk [] none true [])).1.cmdbuffer :=
  (C1_line_reassembly.1 (fun _ => true) true ("A\nB".toList)
    (DaemonState.mk [] none true []) (by decide)).2.2

/-- C2: a drain over a buffer of length L reads at most MAXCMD - 1 - L
bytes, appends exactly the bytes read to the buffer tail (the appended
content is decomposed into processed lines plus the new tail), the buffered
length never reaches the capacity MAXCMD, and no processed line is longer
than MAXCMD - 1 bytes. -/
theorem C2_drain_read_bound :
    ∀ (openOk : List Char → Bool) (reopenOk : Bool) (incoming : List Char)
        (s : DaemonState),
      s.cmdbuffer.length ≤ MAXCMD - 1 →
        (incoming.take (MAXCMD - s.cmdbuffer.length - 1)).length
            ≤ MAXCMD - 1 - s.cmdbuffer.length
        ∧ (incoming.take (MAXCMD - s.cmdbuffer.length - 1) ≠ [] →
            s.cmdbuffer ++ incoming.take (MAXCMD - s.cmdbuffer.length - 1)
              = (((read_command_pipe openOk reopenOk incoming s).2).map
                    (fun l => l ++ ['\n'])).flatten
                ++ (read_command_pipe openOk reopenOk incoming s).1.cmdbuffer)
        ∧ (read_command_pipe openOk reopenOk incoming s).1.cmdbuffer.length
            < MAXCMD
        ∧ (∀ l ∈ (read_command_pipe openOk reopenOk incoming s).2,
            l.length ≤ MAXCMD - 1) := by
  intro openOk reopenOk incoming s hlen
  have hM : MAXCMD = 1024 := rfl
  have htake : (incoming.take (MAXCMD - s.cmdbuffer.length - 1)).length
      ≤ MAXCMD - s.cmdbuffer.length - 1 := List.length_take_le _ _
  refine ⟨by omega, ?_, ?_, ?_⟩
  · intro hd
    rw [read_command_pipe_data hd]
    exact (drainLines_spec
      (s.cmdbuffer ++ incoming.take (MAXCMD - s.cmdbuffer.length - 1))).1
  · by_cases hd : incoming.take (MAXCMD - s.cmdbuffer.length - 1) = []
    · rw [read_command_pipe_eof hd]
      cases reopenOk with
      | false => rw [open_cmd_fail]; simp; omega
      | true => rw [open_cmd_ok]; simp; omega
    · rw [read_command_pipe_data hd]
      have htail := drainLines_tail_length
        (s.cmdbuffer ++ incoming.take (MAXCMD - s.cmdbuffer.length - 1))
      rw [List.length_append] at htail
      simp only []
      omega
  · by_cases hd : incoming.take (MAXCMD - s.cmdbuffer.length - 1) = []
    · rw [read_command_pipe_eof hd]
      intro l hl
      simp at hl
    · rw [read_command_pipe_data hd]
      intro l hl
      have hline := drainLines_line_length hl
      rw [List.length_append] at hline
      omega

/-- Witness for C2: the bound applies to a concrete drain. -/
theorem C2_drain_read_bound_witness :
    (read_command_pipe (fun _ => true) true ("X".toList)
      (DaemonState.mk [] none true [])).1.cmdbuffer.length < MAXCMD :=
  (C2_drain_read_bound (fun _ => true) true ("X".toList)
    (DaemonState.mk [] none true []) (by decide)).2.2.1

/-- C3: the event loop halts exactly when the registry is empty and the
command descriptor is gone (`cmdfd == -1`: channel unconfigured or failed
irrecoverably): every halt state satisfies that condition, a state
satisfying it halts immediately, the loop guard is false only under that
condition, a `select` timeout (or error) performs no domain action, and
under any run of consecutive timeouts the loop never halts while the guard
holds. -/
theorem C3_termination_condition :
    (∀ (env : Nat → SelectResult) (k fuel : Nat) (s s' : DaemonState),
        process_events env k fuel s = some s' →
          s'.devs = [] ∧ s'.cmdfd = false)
    ∧ (∀ s : DaemonState,
        loopIter s SelectResult.timeout = s ∧ loopIter s SelectResult.err = s)
    ∧ (∀ (env : Nat → SelectResult) (k fuel : Nat) (s : DaemonState),
        (∀ i, env i = SelectResult.timeout) → loopCond s = true →
          process_events env k fuel s = none)
    ∧ (∀ (env : Nat → SelectResult) (k fuel : Nat) (s : DaemonState),
        s.devs = [] → s.cmdfd = false →
          process_events env k (fuel + 1) s = some s)
    ∧ (∀ s : DaemonState,
        loopCond s = false ↔ (s.devs = [] ∧ s.cmdfd = false)) := by
  refine ⟨?_, fun s => ⟨rfl, rfl⟩, ?_, ?_, loopCond_eq_false_iff⟩
  · intro env k fuel s s' h
    exact (loopCond_eq_false_iff s').mp (process_events_halt h)
  · intro env k fuel s henv hc
    induction fuel generalizing k with
    | zero => rw [process_events]
    | succ n ih =>
      rw [process_events, if_pos hc, henv k]
      exact ih (k + 1)
  · intro env k fuel s h1 h2
    have hc : loopCond s = false := (loopCond_eq_false_iff s).mpr ⟨h1, h2⟩
    rw [process_events, if_neg (by simp [hc])]

/-- Witness for C3: with one monitored device and only timeouts, the loop
does not halt within five iterations. -/
theorem C3_termination_condition_witness :
    process_events (fun _ => SelectResult.timeout) 0 5
      (DaemonState.mk ["a".toList] none false []) = none :=
  C3_termination_condition.2.2.1 (fun _ => SelectResult.timeout) 0 5
    (DaemonState.mk ["a".toList] none false []) (fun _ => rfl) (by decide)

/-- C4: when the first ready device whose read fails is `d`, the dispatch
pass removes `d` (and only `d`) from the registry, every other device stays
registered, the pass ends at `d` — it services exactly the ready devices
before `d` and then `d`, never reaching later ready devices — and on a
later pass with no failures every surviving ready device is serviced with
the registry untouched. -/
theorem C4_fault_isolation :
    ∀ (ready fails : List Char → Bool) (pre post : List (List Char))
        (d : List Char),
      (∀ e ∈ pre, ¬(ready e = true ∧ fails e = true)) →
      ready d = true → fails d = true →
        (process_devices ready fails (pre ++ d :: post)).1
            = remove_device d (pre ++ d :: post)
        ∧ d ∉ (process_devices ready fails (pre ++ d :: post)).1
        ∧ (∀ e ∈ pre ++ d :: post, e ≠ d →
            e ∈ (process_devices ready fails (pre ++ d :: post)).1)
        ∧ (process_devices ready fails (pre ++ d :: post)).2
            = pre.filter (fun e => ready e) ++ [d]
        ∧ (∀ (ready2 : List Char → Bool) (r : List (List Char)),
            process_devices ready2 (fun _ => false) r
              = (r, r.filter (fun e => ready2 e))) := by
  intro ready fails pre post d hpre hr hf
  have hrun := process_devicesAux_first_fail ready fails hr hf post pre
    (pre ++ d :: post) hpre
  rw [process_devices, hrun]
  refine ⟨rfl, not_mem_remove_device d _, ?_, rfl, ?_⟩
  · intro e he hne
    exact mem_remove_device_of_ne he hne
  · intro ready2 r
    rw [process_devices, process_devicesAux_no_fail]

/-- Witness for C4: a concrete pass in which the middle device fails. -/
theorem C4_fault_isolation_witness :
    "b".toList ∉ (process_devices (fun _ => true)
      (fun e => e = "b".toList) (["a".toList] ++ "b".toList :: ["c".toList])).1 :=
  (C4_fault_isolation (fun _ => true) (fun e => decide (e = "b".toList))
    ["a".toList] ["c".toList] ("b".toList)
    (by decide) (by decide) (by decide)).2.1

/-- C5 counterexample: the startup path loop of `start_readers` hands each
positional argument straight to `add` (append at tail, no remove-first), so
starting the daemon with the same path twice — both opens succeeding —
yields a registry holding two entries with equal path, refuting the claim
for arbitrary startup paths. -/
theorem C5_no_duplicates_cex :
    start_registry (fun _ => true) ["a".toList, "a".toList]
        = ["a".toList, "a".toList]
      ∧ ¬ (start_registry (fun _ => true) ["a".toList, "a".toList]).Nodup := by
  exact ⟨by decide, by decide⟩

/-- C5 amended: from pairwise-distinct startup paths the registry holds no
duplicate paths, and every subsequent operation — a command line (ADD is
processed as remove-then-add), a full loop iteration, a whole loop run —
preserves that; moreover ADD p with a successful open always leaves exactly
one entry for p and the count of every other path unchanged. -/
theorem C5_no_duplicates_amended :
    (∀ (openOk : List Char → Bool) (paths : List (List Char)),
        paths.Nodup → (start_registry openOk paths).Nodup)
    ∧ (∀ (openOk : List Char → Bool) (line : List Char)
          (devs : List (List Char)),
        devs.Nodup → (process_commandline openOk line devs).Nodup)
    ∧ (∀ (s : DaemonState) (inp : SelectResult),
        s.devs.Nodup → (loopIter s inp).devs.Nodup)
    ∧ (∀ (env : Nat → SelectResult) (k fuel : Nat) (s s' : DaemonState),
        s.devs.Nodup → process_events env k fuel s = some s' →
          s'.devs.Nodup)
    ∧ (∀ (p : List Char) (devs : List (List Char)),
        (add_device true p (remove_device p devs)).count p = 1)
    ∧ (∀ (q p : List Char) (devs : List (List Char)), q ≠ p →
        (add_device true p (remove_device p devs)).count q = devs.count q) := by
  refine ⟨fun openOk paths h => start_registry_nodup openOk h,
    fun openOk line devs h => process_commandline_nodup openOk line h,
    fun s inp h => loopIter_nodup s inp h,
    fun env k fuel s s' h hrun => process_events_nodup h hrun,
    ?_, ?_⟩
  · intro p devs
    rw [add_device, if_pos rfl, List.count_append]
    have h0 : (remove_device p devs).count p = 0 :=
      List.count_eq_zero.mpr (not_mem_remove_device p devs)
    rw [h0]
    simp
  · intro q p devs hne
    rw [add_device, if_pos rfl, List.count_append]
    have h2 : List.count q [p] = 0 :=
      List.count_eq_zero.mpr (by simp [hne])
    have h1 : (remove_device p devs).count q = devs.count q := by
      rw [remove_device]
      exact List.count_filter (by simp [hne])
    rw [h1, h2]
    omega

/-- Witness for C5 amended: distinct concrete startup paths give a
duplicate-free registry. -/
theorem C5_no_duplicates_amended_witness :
    (start_registry (fun _ => true) ["a".toList, "b".toList]).Nodup :=
  C5_no_duplicates_amended.1 (fun _ => true) ["a".toList, "b".toList]
    (by decide)

/-- C6: a drain whose `read` returns zero bytes (peer closed the writing
end) hands no line to the parser, discards the buffered partial line
(buffer becomes empty), leaves the registry untouched, and closes and
reopens the descriptor: on a successful reopen the channel stays open and
the loop guard still holds (the daemon is not terminated); the discarded
partial text can never be reprocessed, since the outcome of an EOF drain is
identical whatever the buffer previously held. -/
theorem C6_reconnect_on_eof :
    ∀ (openOk : List Char → Bool) (reopenOk : Bool) (incoming : List Char)
        (s : DaemonState),
      incoming.take (MAXCMD - s.cmdbuffer.length - 1) = [] →
        (read_command_pipe openOk reopenOk incoming s).2 = []
        ∧ (read_command_pipe openOk reopenOk incoming s).1.cmdbuffer = []
        ∧ (read_command_pipe openOk reopenOk incoming s).1.devs = s.devs
        ∧ (reopenOk = true →
            (read_command_pipe openOk reopenOk incoming s).1.cmdfd = true
            ∧ (read_command_pipe openOk reopenOk incoming s).1.command_pipe
                = s.command_pipe
            ∧ loopCond (read_command_pipe openOk reopenOk incoming s).1 = true)
        ∧ (reopenOk = false →
            (read_command_pipe openOk reopenOk incoming s).1.cmdfd = false
            ∧ (read_command_pipe openOk reopenOk incoming s).1.command_pipe
                = none)
        ∧ (∀ b₁ b₂ : List Char,
            read_command_pipe openOk reopenOk [] { s with cmdbuffer := b₁ }
              = read_command_pipe openOk reopenOk [] { s with cmdbuffer := b₂ }) := by
  intro openOk reopenOk incoming s he
  rw [read_command_pipe_eof he]
  cases reopenOk with
  | true =>
    rw [open_cmd_ok]
    refine ⟨rfl, rfl, rfl, fun _ => ⟨rfl, rfl, by simp [loopCond]⟩,
      fun h => by simp at h, ?_⟩
    intro b₁ b₂
    rw [read_command_pipe_eof (by simp), read_command_pipe_eof (by simp)]
  | false =>
    rw [open_cmd_fail]
    refine ⟨rfl, rfl, rfl, fun h => by simp at h, fun _ => ⟨rfl, rfl⟩, ?_⟩
    intro b₁ b₂
    rw [read_command_pipe_eof (by simp), read_command_pipe_eof (by simp)]

/-- Witness for C6: a concrete EOF drain with a buffered partial line. -/
theorem C6_reconnect_on_eof_witness :
    (read_command_pipe (fun _ => true) true []
      (DaemonState.mk ["a".toList] (some ("p".toList)) true
        ("PART".toList))).1.cmdbuffer = [] :=
  (C6_reconnect_on_eof (fun _ => true) true []
    (DaemonState.mk ["a".toList] (some ("p".toList)) true ("PART".toList))
    (by decide)).2.1

/-- C7: a complete, correctly sized record is forwarded to the
collaborators exactly when its class is EV_KEY or EV_SW; a forwarded record
goes first to the Keystate Tracker (`change_keystate`) and last to the
Trigger Engine (`run_triggers`); a record of any other class causes no
collaborator call at all; a short read forwards nothing and reports the
error. -/
theorem C7_event_forwarding :
    (∀ (dump : Bool) (dev : List Char) (ev : InputEvent),
        (read_event dump dev (DevRead.ok ev)).1 = false
        ∧ ((ev.type = EV_KEY ∨ ev.type = EV_SW) ↔
            ((∃ e, Action.changeKeystate e ∈ (read_event dump dev (DevRead.ok ev)).2)
              ∧ (∃ t c v, Action.runTriggers t c v
                    ∈ (read_event dump dev (DevRead.ok ev)).2)))
        ∧ ((ev.type = EV_KEY ∨ ev.type = EV_SW) →
            (read_event dump dev (DevRead.ok ev)).2.head?
                = some (Action.changeKeystate ev)
            ∧ (read_event dump dev (DevRead.ok ev)).2.getLast?
                = some (Action.runTriggers ev.type ev.code ev.value))
        ∧ (¬(ev.type = EV_KEY ∨ ev.type = EV_SW) →
            (read_event dump dev (DevRead.ok ev)).2 = []))
    ∧ (∀ (dump : Bool) (dev : List Char),
        read_event dump dev DevRead.short = (true, [])) := by
  constructor
  · intro dump dev ev
    by_cases hm : ev.type = EV_KEY ∨ ev.type = EV_SW
    · cases dump with
      | false =>
        refine ⟨by simp [read_event, hm], ?_, fun _ => ⟨?_, ?_⟩, fun h => absurd hm h⟩
        · exact iff_of_true hm
            ⟨⟨ev, by simp [read_event, hm]⟩,
              ⟨ev.type, ev.code, ev.value, by simp [read_event, hm]⟩⟩
        · simp [read_event, hm]
        · simp [read_event, hm]
      | true =>
        refine ⟨by simp [read_event, hm], ?_, fun _ => ⟨?_, ?_⟩, fun h => absurd hm h⟩
        · exact iff_of_true hm
            ⟨⟨ev, by simp [read_event, hm]⟩,
              ⟨ev.type, ev.code, ev.value, by simp [read_event, hm]⟩⟩
        · simp [read_event, hm]
        · simp [read_event, hm]
    · refine ⟨by simp [read_event, hm], ?_, fun h => absurd h hm, fun _ => by simp [read_event, hm]⟩
      refine iff_of_false hm ?_
      rintro ⟨⟨e, he⟩, -⟩
      simp [read_event, hm] at he
  · intro dump dev
    rfl

/-- Witness for C7: a concrete EV_KEY record is forwarded keystate-first,
triggers-last. -/
theorem C7_event_forwarding_witness :
    (read_event false [] (DevRead.ok (InputEvent.mk 1 30 1))).2.head?
        = some (Action.changeKeystate (InputEvent.mk 1 30 1))
      ∧ (read_event false [] (DevRead.ok (InputEvent.mk 1 30 1))).2.getLast?
        = some (Action.runTriggers 1 30 1) :=
  (C7_event_forwarding.1 false [] (InputEvent.mk 1 30 1)).2.2.1 (Or.inl rfl)

/-- C8: a command line whose first token is neither ADD nor REMOVE, or
whose argument token is missing, leaves the registry unchanged — in
particular the line "FOO bar" changes nothing. -/
theorem C8_unknown_command_ignored :
    (∀ (openOk : List Char → Bool) (line : List Char)
        (devs : List (List Char)) (op : List Char) (rest : List (List Char)),
        tokens line = op :: rest →
        op ≠ "ADD".toList → op ≠ "REMOVE".toList →
          process_commandline openOk line devs = devs)
    ∧ (∀ (openOk : List Char → Bool) (line : List Char)
          (devs : List (List Char)) (op : List Char),
        tokens line = [op] → process_commandline openOk line devs = devs)
    ∧ (∀ (openOk : List Char → Bool) (line : List Char)
          (devs : List (List Char)),
        tokens line = [] → process_commandline openOk line devs = devs)
    ∧ (∀ (openOk : List Char → Bool) (devs : List (List Char)),
        process_commandline openOk ("FOO bar".toList) devs = devs) := by
  refine ⟨?_, ?_, ?_, ?_⟩
  · intro openOk line devs op rest htok h1 h2
    have hp : parse_command line = none := by
      simp only [parse_command, htok]
      rw [if_neg h1, if_neg h2]
    rw [process_commandline, hp]
  · intro openOk line devs op htok
    have hp : parse_command line = none := by
      simp only [parse_command, htok]
      by_cases h1 : op = "ADD".toList
      · rw [if_pos h1]; rfl
      · rw [if_neg h1]
        by_cases h2 : op = "REMOVE".toList
        · rw [if_pos h2]; rfl
        · rw [if_neg h2]
    rw [process_commandline, hp]
  · intro openOk line devs htok
    have hp : parse_command line = none := by rw [parse_command, htok]
    rw [process_commandline, hp]
  · intro openOk devs
    have hp : parse_command ("FOO bar".toList) = none := by decide
    rw [process_commandline, hp]

/-- Witness for C8: a concrete line with an unknown op and a concrete
one-token line both leave a concrete registry unchanged. -/
theorem C8_unknown_command_ignored_witness :
    process_commandline (fun _ => true) ("ADD".toList) ["a".toList]
      = ["a".toList] :=
  C8_unknown_command_ignored.2.1 (fun _ => true) ("ADD".toList)
    ["a".toList] ("ADD".toList) (by decide)

/-- C9: a drain invoked with the buffer already holding MAXCMD - 1 bytes
requests a read of `rem - 1 = 0` bytes, so `read` returns 0 and the drain
takes the peer-closed EOF branch for any incoming data: the whole buffered
line is silently dropped and the descriptor is closed and reopened — the
over-long unterminated line is discarded via a spurious reconnect, with no
distinct overflow handling. -/
theorem C9_overflow_as_eof :
    ∀ (openOk : List Char → Bool) (reopenOk : Bool) (incoming : List Char)
        (s : DaemonState),
      s.cmdbuffer.length = MAXCMD - 1 →
        MAXCMD - s.cmdbuffer.length - 1 = 0
        ∧ incoming.take (MAXCMD - s.cmdbuffer.length - 1) = []
        ∧ (read_command_pipe openOk reopenOk incoming s).2 = []
        ∧ (read_command_pipe openOk reopenOk incoming s).1.cmdbuffer = []
        ∧ (read_command_pipe openOk reopenOk incoming s).1.devs = s.devs
        ∧ (reopenOk = true →
            (read_command_pipe openOk reopenOk incoming s).1.cmdfd = true)
        ∧ (reopenOk = false →
            (read_command_pipe openOk reopenOk incoming s).1.cmdfd = false
            ∧ (read_command_pipe openOk reopenOk incoming s).1.command_pipe
                = none) := by
  intro openOk reopenOk incoming s hlen
  have hM : MAXCMD = 1024 := rfl
  have h0 : MAXCMD - s.cmdbuffer.length - 1 = 0 := by omega
  have he : incoming.take (MAXCMD - s.cmdbuffer.length - 1) = [] := by
    rw [h0, List.take_zero]
  rw [read_command_pipe_eof he]
  cases reopenOk with
  | true =>
    rw [open_cmd_ok]
    exact ⟨h0, he, rfl, rfl, rfl, fun _ => rfl, fun h => by simp at h⟩
  | false =>
    rw [open_cmd_fail]
    exact ⟨h0, he, rfl, rfl, rfl, fun h => by simp at h, fun _ => ⟨rfl, rfl⟩⟩

/-- Witness for C9: a concrete full buffer (1023 bytes, no newline) is
dropped by a spurious reconnect even though data is available. -/
theorem C9_overflow_as_eof_witness :
    (read_command_pipe (fun _ => true) true ['x']
      (DaemonState.mk [] (some ("p".toList)) true
        (List.replicate 1023 'a'))).1.cmdbuffer = [] :=
  (C9_overflow_as_eof (fun _ => true) true ['x']
    (DaemonState.mk [] (some ("p".toList)) true (List.replicate 1023 'a'))
    (by show (List.replicate 1023 'a').length = MAXCMD - 1
        rw [List.length_replicate]
        decide)).2.2.2.1

/-- C10: when the reopen after an EOF-triggered reconnect fails, the
channel is permanently disabled — `command_pipe` is cleared and `cmdfd`
stays at -1 — no later loop iteration ever retries it (a drain only runs
when `cmdfd` is open), and the loop then halts as soon as the registry is
empty. -/
theorem C10_reconnect_failure_permanent :
    (∀ s : DaemonState,
        (open_cmd false s).1.cmdfd = false
        ∧ (open_cmd false s).1.command_pipe = none
        ∧ (open_cmd false s).2 = true)
    ∧ (∀ (openOk : List Char → Bool) (incoming : List Char) (s : DaemonState),
        incoming.take (MAXCMD - s.cmdbuffer.length - 1) = [] →
          (read_command_pipe openOk false incoming s).1.cmdfd = false
          ∧ (read_command_pipe openOk false incoming s).1.command_pipe = none)
    ∧ (∀ (s : DaemonState) (inp : SelectResult), s.cmdfd = false →
        (loopIter s inp).cmdfd = false
        ∧ (loopIter s inp).command_pipe = s.command_pipe
        ∧ (loopIter s inp).cmdbuffer = s.cmdbuffer)
    ∧ (∀ (env : Nat → SelectResult) (k fuel : Nat) (s : DaemonState),
        s.cmdfd = false → s.devs = [] →
          process_events env k (fuel + 1) s = some s) := by
  refine ⟨fun s => ⟨rfl, rfl, rfl⟩, ?_, ?_, ?_⟩
  · intro openOk incoming s he
    rw [read_command_pipe_eof he, open_cmd_fail]
    exact ⟨rfl, rfl⟩
  · intro s inp hfd
    cases inp with
    | err => exact ⟨hfd, rfl, rfl⟩
    | timeout => exact ⟨hfd, rfl, rfl⟩
    | ready dr df cr inc ro ok =>
      rw [loopIter]
      rw [if_neg (by simp [hfd])]
      exact ⟨hfd, rfl, rfl⟩
  · intro env k fuel s hfd hdevs
    have hc : loopCond s = false := (loopCond_eq_false_iff s).mpr ⟨hdevs, hfd⟩
    rw [process_events, if_neg (by simp [hc])]

/-- Witness for C10: a concrete state with a dead channel and empty
registry halts at once. -/
theorem C10_reconnect_failure_permanent_witness :
    process_events (fun _ => SelectResult.timeout) 0 1
        (DaemonState.mk [] none false [])
      = some (DaemonState.mk [] none false []) :=
  C10_reconnect_failure_permanent.2.2.2 (fun _ => SelectResult.timeout) 0 0
    (DaemonState.mk [] none false []) rfl rfl

end Triggerhappy
